import Mathlib

/-!
Shallow embedding of `src/disks/sys/linux/iostats.rs` from the
speculare-cloud/sys_metrics repository.

The Rust code reads `/proc/diskstats` line by line, splits each line on
whitespace, extracts the device name (`fields.nth(2)`, zero-based index 2),
the sectors-read count (next `fields.nth(2)`, i.e. zero-based index 5) and
the sectors-written count (next `fields.nth(3)`, i.e. zero-based index 9),
skips the line when fewer than 4 fields remain (total fields < 14), and
otherwise pushes an `IoStats` record with the sector counts parsed as `i64`
and multiplied by 512.

We model:
* the file content as a list of read events (`ReadEvent.line s` for a line
  successfully returned by `read_line`, `ReadEvent.err` for a failing read),
* `File::open` success as a boolean parameter,
* the `libc::access(path, F_OK) == 0` existence check of
  `get_iostats_physical` as a boolean-valued function on path strings,
* panics of unguarded `unwrap`s, the propagated `io::Error`, and the
  `CString::new` nul error as distinct outcome constructors,
* Rust `i64` arithmetic as `Int` with explicit two's-complement wrapping,
* Rust `str::split_whitespace` as splitting on `Char.isWhitespace` and
  dropping empty fields (Rust uses the full Unicode white-space property;
  for the ASCII content of `/proc/diskstats` the two coincide).
-/

/-- The `IoStats` record from `src/disks` (fields used by the Linux code). -/
structure IoStats where
  device_name : String
  bytes_read : Int
  bytes_wrtn : Int
  deriving Repr, DecidableEq

/-- Two's-complement wrap into the `i64` range, modelling Rust release-mode
integer arithmetic. -/
def i64wrap (x : Int) : Int :=
  (x + 2 ^ 63) % 2 ^ 64 - 2 ^ 63

/-- Accumulator-style splitter: splits a character list on whitespace runs,
returning the maximal non-empty fields, like Rust `str::split_whitespace`. -/
def splitWSAux : List Char → List Char → List String
  | [], cur => if cur.isEmpty then [] else [String.mk cur.reverse]
  | c :: cs, cur =>
    if c.isWhitespace then
      if cur.isEmpty then splitWSAux cs []
      else String.mk cur.reverse :: splitWSAux cs []
    else splitWSAux cs (c :: cur)

/-- Model of Rust `str::split_whitespace` collected into a list. -/
def splitWhitespace (s : String) : List String :=
  splitWSAux s.data []

/-- Decimal digit accumulator for integer parsing. -/
def parseDigitsAux : List Char → Nat → Option Nat
  | [], acc => some acc
  | c :: cs, acc =>
    if c.isDigit then parseDigitsAux cs (acc * 10 + (c.toNat - 48))
    else none

/-- Parse a non-empty all-digit character list as a natural number. -/
def parseNatCore : List Char → Option Nat
  | [] => none
  | cs => parseDigitsAux cs 0

/-- Model of Rust `str::parse::<i64>()`: optional sign, at least one ASCII
digit, result within the `i64` range. -/
def parseI64 (s : String) : Option Int :=
  match s.data with
  | '+' :: cs =>
    (parseNatCore cs).bind fun n =>
      if (n : Int) ≤ 2 ^ 63 - 1 then some (n : Int) else none
  | '-' :: cs =>
    (parseNatCore cs).bind fun n =>
      if (n : Int) ≤ 2 ^ 63 then some (-(n : Int)) else none
  | cs =>
    (parseNatCore cs).bind fun n =>
      if (n : Int) ≤ 2 ^ 63 - 1 then some (n : Int) else none

/-- Model of Rust `Iterator::nth n` on the remaining fields: returns the
element at offset `n` together with the iterator state after it, or `none`
when the iterator is exhausted first (where the Rust code would `unwrap` a
`None`). -/
def nthRust (n : Nat) (xs : List String) : Option (String × List String) :=
  match xs.drop n with
  | [] => none
  | x :: rest => some (x, rest)

/-- The field-extraction prefix shared verbatim by `get_iostats` and
`get_iostats_physical`: `fields.nth(2)` (name), `fields.nth(2)` (sectors
read), `fields.nth(3)` (sectors written), then `fields.count()` on what is
left. Returns `none` when one of the `nth` calls returns `None`, i.e. where
the Rust `unwrap` panics. -/
def parseFields (s : String) : Option (String × String × String × Nat) :=
  match nthRust 2 (splitWhitespace s) with
  | none => none
  | some (name, r1) =>
    match nthRust 2 r1 with
    | none => none
    | some (byte_r, r2) =>
      match nthRust 3 r2 with
      | none => none
      | some (byte_w, r3) => some (name, byte_r, byte_w, r3.length)

/-- Outcome of processing one line of `/proc/diskstats`. -/
inductive LineOut where
  | emit (r : IoStats)
  | skip
  | panicked
  | nulErr
  deriving Repr, DecidableEq

/-- Whether a string contains an interior nul byte (what `CString::new`
rejects). -/
def hasNul (s : String) : Bool :=
  s.data.any fun c => c = Char.ofNat 0

/-- Rust `name.replace("/", "!")`: slashes become exclamation marks. -/
def replaceSlashBang (s : String) : String :=
  String.mk (s.data.map fun c => if c = '/' then '!' else c)

/-- The sysfs descriptor path probed by `get_iostats_physical`. -/
def sysPath (name : String) : String :=
  "/sys/block/" ++ replaceSlashBang name ++ "/device"

/-- The per-line body of `get_iostats`: extract fields, `continue` when
fewer than 4 fields remain, otherwise parse the two sector counts
(`unwrap` panics on failure) and emit the record. -/
def processLine (s : String) : LineOut :=
  match parseFields s with
  | none => .panicked
  | some (name, byte_r, byte_w, restLen) =>
    if restLen < 4 then .skip
    else
      match parseI64 byte_r, parseI64 byte_w with
      | some r, some w =>
        .emit { device_name := name,
                bytes_read := i64wrap (r * 512),
                bytes_wrtn := i64wrap (w * 512) }
      | _, _ => .panicked

/-- The per-line body of `get_iostats_physical`: same extraction and length
check, then the `CString::new` nul check on the formatted path, then the
`libc::access` existence test (`ex`), then the same parse-and-emit. -/
def processLinePhys (ex : String → Bool) (s : String) : LineOut :=
  match parseFields s with
  | none => .panicked
  | some (name, byte_r, byte_w, restLen) =>
    if restLen < 4 then .skip
    else if hasNul (replaceSlashBang name) then .nulErr
    else if ex (sysPath name) then
      match parseI64 byte_r, parseI64 byte_w with
      | some r, some w =>
        .emit { device_name := name,
                bytes_read := i64wrap (r * 512),
                bytes_wrtn := i64wrap (w * 512) }
      | _, _ => .panicked
    else .skip

/-- One `read_line` interaction: a successfully read line, or a read error
(which the `?` operator propagates). -/
inductive ReadEvent where
  | line (s : String)
  | err
  deriving Repr, DecidableEq

/-- Result of a whole call: the returned vector, a propagated I/O error, a
propagated `CString` nul error (converted into an `io::Error` by `?`), or a
panic of an unguarded `unwrap`. -/
inductive Outcome where
  | ok (res : List IoStats)
  | ioErr
  | nulError
  | panicked
  deriving Repr, DecidableEq

/-- The `while file.read_line(..)? != 0` loop of `get_iostats`,
accumulating `viostats`. -/
def getIostatsAux : List ReadEvent → List IoStats → Outcome
  | [], acc => .ok acc
  | ReadEvent.err :: _, _ => .ioErr
  | ReadEvent.line s :: rest, acc =>
    match processLine s with
    | .panicked => .panicked
    | .nulErr => .nulError
    | .skip => getIostatsAux rest acc
    | .emit r => getIostatsAux rest (acc ++ [r])

/-- `get_iostats`, with `File::open` success and the read events as
parameters. -/
def get_iostats (openOk : Bool) (evs : List ReadEvent) : Outcome :=
  if openOk then getIostatsAux evs [] else .ioErr

/-- The loop of `get_iostats_physical`. -/
def getIostatsPhysAux (ex : String → Bool) :
    List ReadEvent → List IoStats → Outcome
  | [], acc => .ok acc
  | ReadEvent.err :: _, _ => .ioErr
  | ReadEvent.line s :: rest, acc =>
    match processLinePhys ex s with
    | .panicked => .panicked
    | .nulErr => .nulError
    | .skip => getIostatsPhysAux ex rest acc
    | .emit r => getIostatsPhysAux ex rest (acc ++ [r])

/-- `get_iostats_physical`, with the existence check `ex`, `File::open`
success and the read events as parameters. -/
def get_iostats_physical (ex : String → Bool) (openOk : Bool)
    (evs : List ReadEvent) : Outcome :=
  if openOk then getIostatsPhysAux ex evs [] else .ioErr

/-- A line conforming to the kernel format as the spec intends: at least 14
whitespace-separated fields and numeric sectors-read / sectors-written
fields. -/
def wellFormed (s : String) : Prop :=
  14 ≤ (splitWhitespace s).length ∧
    (parseI64 ((splitWhitespace s).getD 5 "")).isSome = true ∧
    (parseI64 ((splitWhitespace s).getD 9 "")).isSome = true

instance (s : String) : Decidable (wellFormed s) := by
  unfold wellFormed
  infer_instance

/-- The record `get_iostats` builds from a well-formed line. -/
def recordOf (s : String) : IoStats :=
  { device_name := (splitWhitespace s).getD 2 "",
    bytes_read :=
      i64wrap ((parseI64 ((splitWhitespace s).getD 5 "")).getD 0 * 512),
    bytes_wrtn :=
      i64wrap ((parseI64 ((splitWhitespace s).getD 9 "")).getD 0 * 512) }

/-- The sector fields of a line, when they parse at all, are non-negative
and small enough for the multiplication by 512 to stay within `i64`. -/
def goodLine (s : String) : Bool :=
  match parseI64 ((splitWhitespace s).getD 5 ""),
      parseI64 ((splitWhitespace s).getD 9 "") with
  | some r, some w =>
    decide (0 ≤ r) && decide (r * 512 < 2 ^ 63) &&
      decide (0 ≤ w) && decide (w * 512 < 2 ^ 63)
  | _, _ => true

/-- A read event whose line, if any, satisfies `goodLine`. -/
def goodEvent : ReadEvent → Bool
  | .line s => goodLine s
  | .err => true

/-- Read events whose line neither panics nor hits the nul error in
`get_iostats`. -/
def eventOk (e : ReadEvent) : Prop :=
  match e with
  | .line s => processLine s ≠ .panicked
  | .err => True

instance (e : ReadEvent) : Decidable (eventOk e) := by
  cases e <;> unfold eventOk <;> infer_instance

/-- Read events whose line neither panics nor hits the nul error in
`get_iostats_physical`. -/
def eventOkPhys (ex : String → Bool) (e : ReadEvent) : Prop :=
  match e with
  | .line s =>
    processLinePhys ex s ≠ .panicked ∧ processLinePhys ex s ≠ .nulErr
  | .err => True

instance (ex : String → Bool) (e : ReadEvent) : Decidable (eventOkPhys ex e) := by
  cases e <;> unfold eventOkPhys <;> infer_instance

/-! ### Helper lemmas -/

theorem i64wrap_eq_self (x : Int) (h1 : -(2 ^ 63) ≤ x) (h2 : x < 2 ^ 63) :
    i64wrap x = x := by
  have e : (x + 2 ^ 63) % 2 ^ 64 = x + 2 ^ 63 := by
    apply Int.emod_eq_of_lt
    · norm_num
      linarith
    · norm_num at h2 ⊢
      omega
  unfold i64wrap
  rw [e]
  ring

theorem i64wrap_nonneg (x : Int) (h1 : 0 ≤ x) (h2 : x < 2 ^ 63) :
    0 ≤ i64wrap x := by
  rw [i64wrap_eq_self x (by linarith) h2]
  exact h1

theorem nthRust_eq (xs : List String) (n : Nat) (h : n < xs.length) :
    nthRust n xs = some (xs.getD n "", xs.drop (n + 1)) := by
  unfold nthRust
  rw [List.drop_eq_getElem_cons h, List.getD_eq_getElem xs "" h]

theorem nthRust_some {xs : List String} {n : Nat} {p : String × List String}
    (h : nthRust n xs = some p) :
    n < xs.length ∧ p = (xs.getD n "", xs.drop (n + 1)) := by
  have hlen : n < xs.length := by
    by_contra hc
    push_neg at hc
    have hnil : xs.drop n = [] := List.drop_eq_nil_iff.mpr hc
    unfold nthRust at h
    rw [hnil] at h
    exact Option.noConfusion h
  rw [nthRust_eq xs n hlen] at h
  exact ⟨hlen, (Option.some.inj h).symm⟩

theorem getD_drop (l : List String) (m n : Nat) (h : m + n < l.length) :
    (l.drop m).getD n "" = l.getD (m + n) "" := by
  have hn : n < (l.drop m).length := by
    rw [List.length_drop]
    omega
  rw [List.getD_eq_getElem _ _ hn, List.getD_eq_getElem _ _ h]
  simp [List.getElem_drop]

theorem parseFields_eq (s : String)
    (h : 10 ≤ (splitWhitespace s).length) :
    parseFields s =
      some ((splitWhitespace s).getD 2 "", (splitWhitespace s).getD 5 "",
        (splitWhitespace s).getD 9 "",
        (splitWhitespace s).length - 10) := by
  have e1 := nthRust_eq (splitWhitespace s) 2 (by omega)
  have d1 : (splitWhitespace s).drop 3 = List.drop 3 (splitWhitespace s) := rfl
  have h2 : 2 < (List.drop 3 (splitWhitespace s)).length := by
    rw [List.length_drop]
    omega
  have e2 := nthRust_eq (List.drop 3 (splitWhitespace s)) 2 h2
  rw [getD_drop _ 3 2 (by omega), List.drop_drop] at e2
  have h3 : 3 < (List.drop 6 (splitWhitespace s)).length := by
    rw [List.length_drop]
    omega
  have e3 := nthRust_eq (List.drop 6 (splitWhitespace s)) 3 h3
  rw [getD_drop _ 6 3 (by omega), List.drop_drop] at e3
  show (match nthRust 2 (splitWhitespace s) with
    | none => none
    | some (name, r1) =>
      match nthRust 2 r1 with
      | none => none
      | some (byte_r, r2) =>
        match nthRust 3 r2 with
        | none => none
        | some (byte_w, r3) => some (name, byte_r, byte_w, r3.length)) = _
  rw [e1]
  show (match nthRust 2 (List.drop 3 (splitWhitespace s)) with
    | none => none
    | some (byte_r, r2) =>
      match nthRust 3 r2 with
      | none => none
      | some (byte_w, r3) => some ((splitWhitespace s).getD 2 "", byte_r, byte_w, r3.length)) = _
  rw [show (2 : Nat) + 1 + 3 = 6 from rfl] at e2
  rw [e2]
  show (match nthRust 3 (List.drop 6 (splitWhitespace s)) with
    | none => none
    | some (byte_w, r3) =>
      some ((splitWhitespace s).getD 2 "", (splitWhitespace s).getD 5 "",
        byte_w, r3.length)) = _
  rw [show (3 : Nat) + 1 + 6 = 10 from rfl] at e3
  rw [e3]
  simp [List.length_drop]

theorem parseFields_none (s : String)
    (h : (splitWhitespace s).length < 10) :
    parseFields s = none := by
  rcases hpf : parseFields s with _ | p
  · rfl
  · exfalso
    obtain ⟨name, byte_r, byte_w, k⟩ := p
    unfold parseFields at hpf
    split at hpf
    · exact Option.noConfusion hpf
    · rename_i p1 name1 r1 heq1
      obtain ⟨h1len, h1eq⟩ := nthRust_some heq1
      obtain ⟨e1n, e1r⟩ := Prod.mk.injEq .. ▸ h1eq
      split at hpf
      · exact Option.noConfusion hpf
      · rename_i p2 br2 r2 heq2
        obtain ⟨h2len, h2eq⟩ := nthRust_some heq2
        split at hpf
        · exact Option.noConfusion hpf
        · rename_i p3 bw3 r3 heq3
          obtain ⟨h3len, _⟩ := nthRust_some heq3
          obtain ⟨e2n, e2r⟩ := Prod.mk.injEq .. ▸ h2eq
          subst e1r
          subst e2r
          rw [List.length_drop] at h2len
          rw [List.drop_drop, List.length_drop] at h3len
          omega

theorem parseFields_some {s : String} {name byte_r byte_w : String} {k : Nat}
    (h : parseFields s = some (name, byte_r, byte_w, k)) :
    10 ≤ (splitWhitespace s).length ∧
      name = (splitWhitespace s).getD 2 "" ∧
      byte_r = (splitWhitespace s).getD 5 "" ∧
      byte_w = (splitWhitespace s).getD 9 "" ∧
      k = (splitWhitespace s).length - 10 := by
  by_cases hlen : 10 ≤ (splitWhitespace s).length
  · rw [parseFields_eq s hlen] at h
    simp only [Option.some.injEq, Prod.mk.injEq] at h
    obtain ⟨hn, hr, hw, hk⟩ := h
    exact ⟨hlen, hn.symm, hr.symm, hw.symm, hk.symm⟩
  · rw [parseFields_none s (by omega)] at h
    exact Option.noConfusion h

theorem processLine_emit (s : String) (r w : Int)
    (h14 : 14 ≤ (splitWhitespace s).length)
    (hr : parseI64 ((splitWhitespace s).getD 5 "") = some r)
    (hw : parseI64 ((splitWhitespace s).getD 9 "") = some w) :
    processLine s =
      .emit { device_name := (splitWhitespace s).getD 2 "",
              bytes_read := i64wrap (r * 512),
              bytes_wrtn := i64wrap (w * 512) } := by
  have hlen : ¬ ((splitWhitespace s).length - 10 < 4) := by omega
  unfold processLine
  rw [parseFields_eq s (by omega)]
  simp only [if_neg hlen, hr, hw]

theorem processLine_skip (s : String)
    (h10 : 10 ≤ (splitWhitespace s).length)
    (h14 : (splitWhitespace s).length < 14) :
    processLine s = .skip := by
  have hlen : (splitWhitespace s).length - 10 < 4 := by omega
  unfold processLine
  rw [parseFields_eq s h10]
  simp only [if_pos hlen]

theorem processLinePhys_skip (ex : String → Bool) (s : String)
    (h10 : 10 ≤ (splitWhitespace s).length)
    (h14 : (splitWhitespace s).length < 14) :
    processLinePhys ex s = .skip := by
  have hlen : (splitWhitespace s).length - 10 < 4 := by omega
  unfold processLinePhys
  rw [parseFields_eq s h10]
  simp only [if_pos hlen]

theorem processLinePhys_eq (ex : String → Bool) (s : String) (r w : Int)
    (h14 : 14 ≤ (splitWhitespace s).length)
    (hnul : hasNul (replaceSlashBang ((splitWhitespace s).getD 2 "")) = false)
    (hr : parseI64 ((splitWhitespace s).getD 5 "") = some r)
    (hw : parseI64 ((splitWhitespace s).getD 9 "") = some w) :
    processLinePhys ex s =
      (if ex (sysPath ((splitWhitespace s).getD 2 "")) then
        LineOut.emit { device_name := (splitWhitespace s).getD 2 "",
                       bytes_read := i64wrap (r * 512),
                       bytes_wrtn := i64wrap (w * 512) }
      else LineOut.skip) := by
  have hlen : ¬ ((splitWhitespace s).length - 10 < 4) := by omega
  unfold processLinePhys
  rw [parseFields_eq s (by omega)]
  simp only [if_neg hlen, hnul, Bool.false_eq_true, if_false, hr, hw]

theorem processLinePhys_nul (ex : String → Bool) (s : String)
    (h14 : 14 ≤ (splitWhitespace s).length)
    (hnul : hasNul (replaceSlashBang ((splitWhitespace s).getD 2 "")) = true) :
    processLinePhys ex s = .nulErr := by
  have hlen : ¬ ((splitWhitespace s).length - 10 < 4) := by omega
  unfold processLinePhys
  rw [parseFields_eq s (by omega)]
  simp only [if_neg hlen, hnul, if_true]

theorem processLine_emit_inv {s : String} {rec : IoStats}
    (h : processLine s = .emit rec) :
    ∃ r w, 14 ≤ (splitWhitespace s).length ∧
      parseI64 ((splitWhitespace s).getD 5 "") = some r ∧
      parseI64 ((splitWhitespace s).getD 9 "") = some w ∧
      rec = { device_name := (splitWhitespace s).getD 2 "",
              bytes_read := i64wrap (r * 512),
              bytes_wrtn := i64wrap (w * 512) } := by
  unfold processLine at h
  split at h
  · exact absurd h (by simp)
  · rename_i name byte_r byte_w restLen heq
    obtain ⟨h10, hn, hbr, hbw, hk⟩ := parseFields_some heq
    subst hn
    subst hbr
    subst hbw
    subst hk
    split at h
    · exact absurd h (by simp)
    · rename_i hlt
      split at h
      · rename_i r w hr hw
        exact ⟨r, w, by omega, hr, hw, (LineOut.emit.inj h).symm⟩
      · exact absurd h (by simp)

theorem processLinePhys_emit_inv {ex : String → Bool} {s : String}
    {rec : IoStats} (h : processLinePhys ex s = .emit rec) :
    ∃ r w, 14 ≤ (splitWhitespace s).length ∧
      parseI64 ((splitWhitespace s).getD 5 "") = some r ∧
      parseI64 ((splitWhitespace s).getD 9 "") = some w ∧
      rec = { device_name := (splitWhitespace s).getD 2 "",
              bytes_read := i64wrap (r * 512),
              bytes_wrtn := i64wrap (w * 512) } := by
  unfold processLinePhys at h
  split at h
  · exact absurd h (by simp)
  · rename_i name byte_r byte_w restLen heq
    obtain ⟨h10, hn, hbr, hbw, hk⟩ := parseFields_some heq
    subst hn
    subst hbr
    subst hbw
    subst hk
    split at h
    · exact absurd h (by simp)
    · rename_i hlt
      split at h
      · exact absurd h (by simp)
      · split at h
        · split at h
          · rename_i r w hr hw
            exact ⟨r, w, by omega, hr, hw, (LineOut.emit.inj h).symm⟩
          · exact absurd h (by simp)
        · exact absurd h (by simp)

/-- The physical variant emits a record only when the plain variant emits
the very same record for the same line. -/
theorem processLine_of_phys_emit {ex : String → Bool} {s : String}
    {rec : IoStats} (h : processLinePhys ex s = .emit rec) :
    processLine s = .emit rec := by
  obtain ⟨r, w, h14, hr, hw, hrec⟩ := processLinePhys_emit_inv h
  rw [processLine_emit s r w h14 hr hw, hrec]

theorem processLine_ne_nulErr (s : String) : processLine s ≠ .nulErr := by
  unfold processLine
  split
  · simp
  · split
    · simp
    · split <;> simp

theorem processLine_wf {s : String} (h : wellFormed s) :
    processLine s = .emit (recordOf s) := by
  obtain ⟨h14, hr, hw⟩ := h
  rw [Option.isSome_iff_exists] at hr hw
  obtain ⟨r, hr⟩ := hr
  obtain ⟨w, hw⟩ := hw
  rw [processLine_emit s r w h14 hr hw]
  simp only [recordOf, hr, hw, Option.getD_some]

theorem getIostatsAux_wf (ls : List String) :
    ∀ acc : List IoStats, (∀ s ∈ ls, wellFormed s) →
      getIostatsAux (ls.map ReadEvent.line) acc =
        .ok (acc ++ ls.map recordOf) := by
  induction ls with
  | nil =>
    intro acc _
    simp [getIostatsAux]
  | cons s rest ih =>
    intro acc hwf
    have hp := processLine_wf (hwf s (by simp))
    simp only [List.map_cons, getIostatsAux, hp]
    rw [ih (acc ++ [recordOf s]) (fun t ht => hwf t (by simp [ht]))]
    simp

theorem getIostatsAux_mem :
    ∀ (evs : List ReadEvent) (acc l : List IoStats),
      getIostatsAux evs acc = .ok l →
      ∀ rec ∈ l,
        rec ∈ acc ∨
          ∃ s, ReadEvent.line s ∈ evs ∧ processLine s = .emit rec := by
  intro evs
  induction evs with
  | nil =>
    intro acc l h rec hin
    simp only [getIostatsAux, Outcome.ok.injEq] at h
    subst h
    exact Or.inl hin
  | cons e rest ih =>
    intro acc l h rec hin
    cases e with
    | err => simp [getIostatsAux] at h
    | line s =>
      rcases hp : processLine s with r | _ | _ | _
      · simp only [getIostatsAux, hp] at h
        rcases ih (acc ++ [r]) l h rec hin with hmem | ⟨t, ht, hemit⟩
        · rcases List.mem_append.mp hmem with ha | hr1
          · exact Or.inl ha
          · refine Or.inr ⟨s, by simp, ?_⟩
            rw [List.mem_singleton] at hr1
            rw [← hr1] at hp
            exact hp
        · exact Or.inr ⟨t, by simp [ht], hemit⟩
      · simp only [getIostatsAux, hp] at h
        rcases ih acc l h rec hin with hmem | ⟨t, ht, hemit⟩
        · exact Or.inl hmem
        · exact Or.inr ⟨t, by simp [ht], hemit⟩
      · simp only [getIostatsAux, hp] at h
        exact absurd h (by simp)
      · simp only [getIostatsAux, hp] at h
        exact absurd h (by simp)

theorem getIostatsPhysAux_mem (ex : String → Bool) :
    ∀ (evs : List ReadEvent) (acc l : List IoStats),
      getIostatsPhysAux ex evs acc = .ok l →
      ∀ rec ∈ l,
        rec ∈ acc ∨
          ∃ s, ReadEvent.line s ∈ evs ∧ processLinePhys ex s = .emit rec := by
  intro evs
  induction evs with
  | nil =>
    intro acc l h rec hin
    simp only [getIostatsPhysAux, Outcome.ok.injEq] at h
    subst h
    exact Or.inl hin
  | cons e rest ih =>
    intro acc l h rec hin
    cases e with
    | err => simp [getIostatsPhysAux] at h
    | line s =>
      rcases hp : processLinePhys ex s with r | _ | _ | _
      · simp only [getIostatsPhysAux, hp] at h
        rcases ih (acc ++ [r]) l h rec hin with hmem | ⟨t, ht, hemit⟩
        · rcases List.mem_append.mp hmem with ha | hr1
          · exact Or.inl ha
          · refine Or.inr ⟨s, by simp, ?_⟩
            rw [List.mem_singleton] at hr1
            rw [← hr1] at hp
            exact hp
        · exact Or.inr ⟨t, by simp [ht], hemit⟩
      · simp only [getIostatsPhysAux, hp] at h
        rcases ih acc l h rec hin with hmem | ⟨t, ht, hemit⟩
        · exact Or.inl hmem
        · exact Or.inr ⟨t, by simp [ht], hemit⟩
      · simp only [getIostatsPhysAux, hp] at h
        exact absurd h (by simp)
      · simp only [getIostatsPhysAux, hp] at h
        exact absurd h (by simp)

theorem getIostatsAux_err (pre post : List ReadEvent) :
    ∀ acc, (∀ e ∈ pre, eventOk e) →
      getIostatsAux (pre ++ ReadEvent.err :: post) acc = .ioErr := by
  induction pre with
  | nil =>
    intro acc _
    simp [getIostatsAux]
  | cons e rest ih =>
    intro acc hok
    cases e with
    | err => simp [getIostatsAux]
    | line s =>
      have hs : processLine s ≠ .panicked := hok (.line s) (by simp)
      rcases hp : processLine s with r | _ | _ | _
      · simp only [List.cons_append, getIostatsAux, hp]
        exact ih _ (fun t ht => hok t (by simp [ht]))
      · simp only [List.cons_append, getIostatsAux, hp]
        exact ih _ (fun t ht => hok t (by simp [ht]))
      · exact absurd hp hs
      · exact absurd hp (processLine_ne_nulErr s)

theorem getIostatsPhysAux_err (ex : String → Bool) (pre post : List ReadEvent) :
    ∀ acc, (∀ e ∈ pre, eventOkPhys ex e) →
      getIostatsPhysAux ex (pre ++ ReadEvent.err :: post) acc = .ioErr := by
  induction pre with
  | nil =>
    intro acc _
    simp [getIostatsPhysAux]
  | cons e rest ih =>
    intro acc hok
    cases e with
    | err => simp [getIostatsPhysAux]
    | line s =>
      have hs := hok (.line s) (by simp)
      obtain ⟨hs1, hs2⟩ := hs
      rcases hp : processLinePhys ex s with r | _ | _ | _
      · simp only [List.cons_append, getIostatsPhysAux, hp]
        exact ih _ (fun t ht => hok t (by simp [ht]))
      · simp only [List.cons_append, getIostatsPhysAux, hp]
        exact ih _ (fun t ht => hok t (by simp [ht]))
      · exact absurd hp hs1
      · exact absurd hp hs2

theorem getIostatsPhysAux_sublist (ex : String → Bool) :
    ∀ (evs : List ReadEvent) (accP acc lp l : List IoStats),
      List.Sublist accP acc →
      getIostatsPhysAux ex evs accP = .ok lp →
      getIostatsAux evs acc = .ok l →
      List.Sublist lp l := by
  intro evs
  induction evs with
  | nil =>
    intro accP acc lp l hsub hP hp
    simp only [getIostatsPhysAux, Outcome.ok.injEq] at hP
    simp only [getIostatsAux, Outcome.ok.injEq] at hp
    subst hP
    subst hp
    exact hsub
  | cons e rest ih =>
    intro accP acc lp l hsub hP hp
    cases e with
    | err => simp [getIostatsPhysAux] at hP
    | line s =>
      rcases hpp : processLinePhys ex s with r | _ | _ | _
      · have hpl := processLine_of_phys_emit hpp
        simp only [getIostatsPhysAux, hpp] at hP
        simp only [getIostatsAux, hpl] at hp
        exact ih (accP ++ [r]) (acc ++ [r]) lp l
          (List.Sublist.append hsub (List.Sublist.refl [r])) hP hp
      · simp only [getIostatsPhysAux, hpp] at hP
        rcases hpl : processLine s with r' | _ | _ | _
        · simp only [getIostatsAux, hpl] at hp
          exact ih accP (acc ++ [r']) lp l
            (hsub.trans (List.sublist_append_left acc [r'])) hP hp
        · simp only [getIostatsAux, hpl] at hp
          exact ih accP acc lp l hsub hP hp
        · simp only [getIostatsAux, hpl] at hp
          exact absurd hp (by simp)
        · exact absurd hpl (processLine_ne_nulErr s)
      · simp only [getIostatsPhysAux, hpp] at hP
        exact absurd hP (by simp)
      · simp only [getIostatsPhysAux, hpp] at hP
        exact absurd hP (by simp)

theorem goodLine_bounds {s : String} {r w : Int}
    (hg : goodLine s = true)
    (hr : parseI64 ((splitWhitespace s).getD 5 "") = some r)
    (hw : parseI64 ((splitWhitespace s).getD 9 "") = some w) :
    0 ≤ r ∧ r * 512 < 2 ^ 63 ∧ 0 ≤ w ∧ w * 512 < 2 ^ 63 := by
  unfold goodLine at hg
  rw [hr, hw] at hg
  simp only [Bool.and_eq_true, decide_eq_true_eq] at hg
  tauto

theorem emit_nonneg_plain {s : String} {rec : IoStats}
    (hg : goodLine s = true) (h : processLine s = .emit rec) :
    0 ≤ rec.bytes_read ∧ 0 ≤ rec.bytes_wrtn := by
  obtain ⟨r, w, h14, hr, hw, hrec⟩ := processLine_emit_inv h
  obtain ⟨hr0, hr5, hw0, hw5⟩ := goodLine_bounds hg hr hw
  subst hrec
  exact ⟨i64wrap_nonneg _ (mul_nonneg hr0 (by norm_num)) hr5,
    i64wrap_nonneg _ (mul_nonneg hw0 (by norm_num)) hw5⟩

/-- C1: any input line with at least 14 whitespace-separated fields (whose
sector fields carry integer values `r` and `w` in range) makes `get_iostats`
emit exactly one `IoStats` record: `device_name` is the field at zero-based
index 2, `bytes_read` is 512 times the value of the field at index 5, and
`bytes_wrtn` is 512 times the value of the field at index 9. -/
theorem claim_C1 (s : String) (r w : Int)
    (h14 : 14 ≤ (splitWhitespace s).length)
    (hr : parseI64 ((splitWhitespace s).getD 5 "") = some r)
    (hw : parseI64 ((splitWhitespace s).getD 9 "") = some w)
    (hr1 : -(2 ^ 63) ≤ r * 512) (hr2 : r * 512 < 2 ^ 63)
    (hw1 : -(2 ^ 63) ≤ w * 512) (hw2 : w * 512 < 2 ^ 63) :
    processLine s =
      .emit { device_name := (splitWhitespace s).getD 2 "",
              bytes_read := 512 * r,
              bytes_wrtn := 512 * w } ∧
    get_iostats true [ReadEvent.line s] =
      .ok [{ device_name := (splitWhitespace s).getD 2 "",
             bytes_read := 512 * r,
             bytes_wrtn := 512 * w }] := by
  have hp := processLine_emit s r w h14 hr hw
  rw [i64wrap_eq_self _ hr1 hr2, i64wrap_eq_self _ hw1 hw2,
    mul_comm r 512, mul_comm w 512] at hp
  refine ⟨hp, ?_⟩
  simp [get_iostats, getIostatsAux, hp]

theorem claim_C1_witness :
    processLine "   8       0 sda 100 0 1600 50 0 0 0 0 0 20 50" =
      .emit { device_name := "sda", bytes_read := 819200, bytes_wrtn := 0 } ∧
    get_iostats true
        [ReadEvent.line "   8       0 sda 100 0 1600 50 0 0 0 0 0 20 50"] =
      .ok [{ device_name := "sda", bytes_read := 819200, bytes_wrtn := 0 }] := by
  have h := claim_C1 "   8       0 sda 100 0 1600 50 0 0 0 0 0 20 50" 1600 0
    (by decide) (by decide) (by decide) (by decide) (by decide) (by decide)
    (by decide)
  constructor
  · rw [h.1]
    decide
  · rw [h.2]
    decide

/-- C2 counterexample: the line "8 0" has fewer than 14 whitespace-separated
fields, yet `get_iostats` panics on the unguarded `unwrap` instead of
silently skipping it. -/
theorem claim_C2_cex :
    (splitWhitespace "8 0").length < 14 ∧
    processLine "8 0" ≠ .skip ∧
    get_iostats true [ReadEvent.line "8 0"] = .panicked ∧
    get_iostats true [ReadEvent.line "8 0"] ≠ .ok [] := by decide

/-- C2 amended: every input line with at least 10 but fewer than 14
whitespace-separated fields is silently skipped by `get_iostats` and
`get_iostats_physical`: no record is emitted, no error is raised, and
processing continues with the next line. (Lines with fewer than 10 fields
panic on `unwrap` instead.) -/
theorem claim_C2 (ex : String → Bool) (s : String) (rest : List ReadEvent)
    (acc : List IoStats)
    (h10 : 10 ≤ (splitWhitespace s).length)
    (h14 : (splitWhitespace s).length < 14) :
    processLine s = .skip ∧
    processLinePhys ex s = .skip ∧
    getIostatsAux (ReadEvent.line s :: rest) acc = getIostatsAux rest acc ∧
    getIostatsPhysAux ex (ReadEvent.line s :: rest) acc =
      getIostatsPhysAux ex rest acc ∧
    get_iostats true [ReadEvent.line s] = .ok [] ∧
    get_iostats_physical ex true [ReadEvent.line s] = .ok [] := by
  have h1 := processLine_skip s h10 h14
  have h2 := processLinePhys_skip ex s h10 h14
  refine ⟨h1, h2, ?_, ?_, ?_, ?_⟩
  · simp only [getIostatsAux, h1]
  · simp only [getIostatsPhysAux, h2]
  · simp [get_iostats, getIostatsAux, h1]
  · simp [get_iostats_physical, getIostatsPhysAux, h2]

theorem claim_C2_witness :
    processLine "8 0 sda 100 0 1600 50 0 0 0" = .skip ∧
    processLinePhys (fun _ => true) "8 0 sda 100 0 1600 50 0 0 0" = .skip ∧
    getIostatsAux [ReadEvent.line "8 0 sda 100 0 1600 50 0 0 0"] [] =
      getIostatsAux [] [] ∧
    getIostatsPhysAux (fun _ => true)
        [ReadEvent.line "8 0 sda 100 0 1600 50 0 0 0"] [] =
      getIostatsPhysAux (fun _ => true) [] [] ∧
    get_iostats true [ReadEvent.line "8 0 sda 100 0 1600 50 0 0 0"] =
      .ok [] ∧
    get_iostats_physical (fun _ => true) true
        [ReadEvent.line "8 0 sda 100 0 1600 50 0 0 0"] = .ok [] :=
  claim_C2 (fun _ => true) "8 0 sda 100 0 1600 50 0 0 0" [] []
    (by decide) (by decide)

/-- C3 counterexample: on the spec's own example line the record's
`bytes_wrtn` is 512 times the field at index 9 (value 0), not 512 times the
field at index 6 (value 50), so the claim's index 6 is wrong. -/
theorem claim_C3_cex :
    14 ≤ (splitWhitespace "   8       0 sda 100 0 1600 50 0 0 0 0 0 20 51").length ∧
    (splitWhitespace "   8       0 sda 100 0 1600 50 0 0 0 0 0 20 51").getD 6 "" =
      "50" ∧
    get_iostats true
        [ReadEvent.line "   8       0 sda 100 0 1600 50 0 0 0 0 0 20 51"] =
      .ok [{ device_name := "sda", bytes_read := 819200, bytes_wrtn := 0 }] ∧
    (0 : Int) ≠ 512 * 50 := by decide

/-- C3 amended: for any well-formed input line with at least 14
whitespace-separated fields, the emitted record's `bytes_read` and
`bytes_wrtn` equal the 512-multiplied values of the fields at zero-based
indices 5 and 9 respectively, and `device_name` equals the field at
zero-based index 2. -/
theorem claim_C3 (s : String) (r w : Int)
    (h14 : 14 ≤ (splitWhitespace s).length)
    (hr : parseI64 ((splitWhitespace s).getD 5 "") = some r)
    (hw : parseI64 ((splitWhitespace s).getD 9 "") = some w)
    (hr1 : -(2 ^ 63) ≤ r * 512) (hr2 : r * 512 < 2 ^ 63)
    (hw1 : -(2 ^ 63) ≤ w * 512) (hw2 : w * 512 < 2 ^ 63) :
    ∃ rec, processLine s = .emit rec ∧
      rec.device_name = (splitWhitespace s).getD 2 "" ∧
      rec.bytes_read = 512 * r ∧
      rec.bytes_wrtn = 512 * w := by
  refine ⟨_, processLine_emit s r w h14 hr hw, rfl, ?_, ?_⟩
  · rw [i64wrap_eq_self _ hr1 hr2]
    ring
  · rw [i64wrap_eq_self _ hw1 hw2]
    ring

theorem claim_C3_witness :
    ∃ rec, processLine "8 16 sdb 5 0 7 3 0 0 11 0 0 9 4" = .emit rec ∧
      rec.device_name =
        (splitWhitespace "8 16 sdb 5 0 7 3 0 0 11 0 0 9 4").getD 2 "" ∧
      rec.bytes_read = 512 * 7 ∧
      rec.bytes_wrtn = 512 * 11 :=
  claim_C3 "8 16 sdb 5 0 7 3 0 0 11 0 0 9 4" 7 11 (by decide) (by decide)
    (by decide) (by decide) (by decide) (by decide) (by decide)

/-- C4: for a well-formed line (at least 14 fields, in-range numeric sector
fields, no nul byte in the name) `get_iostats_physical` emits a record if
and only if the existence check succeeds on the path
`/sys/block/<name with every slash replaced by a bang>/device`, and the
`device_name` stored in the emitted record is the original, untransformed
name. -/
theorem claim_C4 (ex : String → Bool) (s : String) (r w : Int)
    (h14 : 14 ≤ (splitWhitespace s).length)
    (hnul : hasNul (replaceSlashBang ((splitWhitespace s).getD 2 "")) = false)
    (hr : parseI64 ((splitWhitespace s).getD 5 "") = some r)
    (hw : parseI64 ((splitWhitespace s).getD 9 "") = some w) :
    processLinePhys ex s =
      (if ex ("/sys/block/" ++
            replaceSlashBang ((splitWhitespace s).getD 2 "") ++ "/device") then
        LineOut.emit { device_name := (splitWhitespace s).getD 2 "",
                       bytes_read := i64wrap (r * 512),
                       bytes_wrtn := i64wrap (w * 512) }
      else LineOut.skip) ∧
    ((∃ rec, processLinePhys ex s = .emit rec ∧
        rec.device_name = (splitWhitespace s).getD 2 "") ↔
      ex ("/sys/block/" ++
          replaceSlashBang ((splitWhitespace s).getD 2 "") ++ "/device") =
        true) := by
  have hmain := processLinePhys_eq ex s r w h14 hnul hr hw
  rw [show sysPath ((splitWhitespace s).getD 2 "") =
      "/sys/block/" ++ replaceSlashBang ((splitWhitespace s).getD 2 "") ++
        "/device" from rfl] at hmain
  refine ⟨hmain, ?_, ?_⟩
  · rintro ⟨rec, hrec, _⟩
    rw [hmain] at hrec
    by_contra hex
    rw [if_neg hex] at hrec
    exact LineOut.noConfusion hrec
  · intro hex
    rw [hmain, if_pos hex]
    exact ⟨_, rfl, rfl⟩

theorem claim_C4_witness :
    processLinePhys (fun p => p == "/sys/block/cciss!c0d0/device")
        "8 0 cciss/c0d0 100 0 1600 50 0 0 0 0 0 20 50" =
      .emit { device_name := "cciss/c0d0", bytes_read := 819200,
              bytes_wrtn := 0 } := by
  have h := claim_C4 (fun p => p == "/sys/block/cciss!c0d0/device")
    "8 0 cciss/c0d0 100 0 1600 50 0 0 0 0 0 20 50" 1600 0
    (by decide) (by decide) (by decide) (by decide)
  rw [h.1]
  decide

/-- C5: feeding `get_iostats` an input of N well-formed lines yields exactly
N `IoStats` records, in file order (the i-th record comes from the i-th
line); in particular an empty input yields an empty output with no error. -/
theorem claim_C5 (ls : List String) (h : ∀ s ∈ ls, wellFormed s) :
    get_iostats true (ls.map ReadEvent.line) = .ok (ls.map recordOf) ∧
    (ls.map recordOf).length = ls.length ∧
    get_iostats true [] = .ok [] := by
  refine ⟨?_, by simp, by decide⟩
  have haux := getIostatsAux_wf ls [] h
  rw [List.nil_append] at haux
  exact haux

theorem claim_C5_witness :
    get_iostats true
        ([ "   8       0 sda 100 0 1600 50 0 0 0 0 0 20 50",
           "8 16 sdb 5 0 7 3 0 0 11 0 0 9 4" ].map ReadEvent.line) =
      .ok ([ "   8       0 sda 100 0 1600 50 0 0 0 0 0 20 50",
             "8 16 sdb 5 0 7 3 0 0 11 0 0 9 4" ].map recordOf) ∧
    ([ "   8       0 sda 100 0 1600 50 0 0 0 0 0 20 50",
       "8 16 sdb 5 0 7 3 0 0 11 0 0 9 4" ].map recordOf).length = 2 ∧
    get_iostats true [] = .ok [] :=
  claim_C5
    [ "   8       0 sda 100 0 1600 50 0 0 0 0 0 20 50",
      "8 16 sdb 5 0 7 3 0 0 11 0 0 9 4" ] (by decide)

/-- C6: when the statistics source cannot be opened, or a read fails
mid-stream, `get_iostats` and `get_iostats_physical` fail with an I/O error
and return no records: whatever was accumulated before the failing read is
discarded, not returned as a partial sequence. -/
theorem claim_C6 (ex : String → Bool) (evs pre post : List ReadEvent)
    (hok : ∀ e ∈ pre, eventOk e)
    (hokP : ∀ e ∈ pre, eventOkPhys ex e) :
    get_iostats false evs = .ioErr ∧
    get_iostats_physical ex false evs = .ioErr ∧
    get_iostats true (pre ++ ReadEvent.err :: post) = .ioErr ∧
    get_iostats_physical ex true (pre ++ ReadEvent.err :: post) = .ioErr := by
  refine ⟨rfl, rfl, ?_, ?_⟩
  · exact getIostatsAux_err pre post [] hok
  · exact getIostatsPhysAux_err ex pre post [] hokP

theorem claim_C6_witness :
    get_iostats false [ReadEvent.line "8 16 sdb 5 0 7 3 0 0 11 0 0 9 4"] =
      .ioErr ∧
    get_iostats_physical (fun _ => true) false
        [ReadEvent.line "8 16 sdb 5 0 7 3 0 0 11 0 0 9 4"] = .ioErr ∧
    get_iostats true
        ([ReadEvent.line "8 16 sdb 5 0 7 3 0 0 11 0 0 9 4"] ++
          ReadEvent.err :: []) = .ioErr ∧
    get_iostats_physical (fun _ => true) true
        ([ReadEvent.line "8 16 sdb 5 0 7 3 0 0 11 0 0 9 4"] ++
          ReadEvent.err :: []) = .ioErr :=
  claim_C6 (fun _ => true)
    [ReadEvent.line "8 16 sdb 5 0 7 3 0 0 11 0 0 9 4"]
    [ReadEvent.line "8 16 sdb 5 0 7 3 0 0 11 0 0 9 4"] []
    (by decide) (by decide)

/-- C7: there is an input line with at least 14 whitespace-separated fields
whose read-sectors field (zero-based index 5) is not a valid integer, on
which `get_iostats` panics on the unguarded `unwrap` instead of returning an
error or skipping the line; the fewer-than-14-fields check does not prevent
reaching this panic. -/
theorem claim_C7 :
    14 ≤ (splitWhitespace "8 0 sda 100 0 abc 50 0 0 0 0 0 20 50").length ∧
    parseI64
        ((splitWhitespace "8 0 sda 100 0 abc 50 0 0 0 0 0 20 50").getD 5 "") =
      none ∧
    processLine "8 0 sda 100 0 abc 50 0 0 0 0 0 20 50" = .panicked ∧
    get_iostats true [ReadEvent.line "8 0 sda 100 0 abc 50 0 0 0 0 0 20 50"] =
      .panicked := by decide

/-- C8 counterexample: a line whose read-sectors field is "-1" yields a
record with `bytes_read = -512`, a negative value, so the non-negativity
claim fails on the code as written. -/
theorem claim_C8_cex :
    get_iostats true [ReadEvent.line "8 0 sda 100 0 -1 50 0 0 0 0 0 20 50"] =
      .ok [{ device_name := "sda", bytes_read := -512, bytes_wrtn := 0 }] ∧
    ¬ (0 ≤ (-512 : Int)) := by decide

/-- C8 amended: in every `IoStats` record returned by `get_iostats` or
`get_iostats_physical`, the `bytes_read` and `bytes_wrtn` fields are
non-negative, provided every input line whose sector fields parse carries
non-negative values small enough that the multiplication by 512 stays in
the `i64` range. -/
theorem claim_C8 (ex : String → Bool) (evs : List ReadEvent)
    (hgood : ∀ e ∈ evs, goodEvent e = true) :
    (∀ l, get_iostats true evs = .ok l →
      ∀ rec ∈ l, 0 ≤ rec.bytes_read ∧ 0 ≤ rec.bytes_wrtn) ∧
    (∀ l, get_iostats_physical ex true evs = .ok l →
      ∀ rec ∈ l, 0 ≤ rec.bytes_read ∧ 0 ≤ rec.bytes_wrtn) := by
  constructor
  · intro l h rec hin
    rcases getIostatsAux_mem evs [] l h rec hin with hmem | ⟨s, hs, hemit⟩
    · exact absurd hmem (List.not_mem_nil rec)
    · exact emit_nonneg_plain (hgood (ReadEvent.line s) hs) hemit
  · intro l h rec hin
    rcases getIostatsPhysAux_mem ex evs [] l h rec hin with hmem | ⟨s, hs, hemit⟩
    · exact absurd hmem (List.not_mem_nil rec)
    · exact emit_nonneg_plain (hgood (ReadEvent.line s) hs)
        (processLine_of_phys_emit hemit)

theorem claim_C8_witness :
    (∀ l, get_iostats true
          [ReadEvent.line "   8       0 sda 100 0 1600 50 0 0 0 0 0 20 50"] =
        .ok l → ∀ rec ∈ l, 0 ≤ rec.bytes_read ∧ 0 ≤ rec.bytes_wrtn) ∧
    (∀ l, get_iostats_physical (fun _ => true) true
          [ReadEvent.line "   8       0 sda 100 0 1600 50 0 0 0 0 0 20 50"] =
        .ok l → ∀ rec ∈ l, 0 ≤ rec.bytes_read ∧ 0 ≤ rec.bytes_wrtn) :=
  claim_C8 (fun _ => true)
    [ReadEvent.line "   8       0 sda 100 0 1600 50 0 0 0 0 0 20 50"]
    (by decide)

theorem hasNul_replaceSlashBang (name : String) :
    hasNul (replaceSlashBang name) = hasNul name := by
  unfold hasNul replaceSlashBang
  show (name.data.map fun c => if c = '/' then '!' else c).any _ = _
  induction name.data with
  | nil => rfl
  | cons c cs ih =>
    by_cases hc : c = '/'
    · subst hc
      simp only [List.map_cons, List.any_cons, ih, if_pos rfl]
      congr 1
    · simp only [List.map_cons, List.any_cons, ih, if_neg hc]

/-- C9: if the sysfs path string cannot be constructed for a candidate
device because the device name contains an embedded nul byte, the
`get_iostats_physical` call fails with an error (the `CString::new` error
propagated by `?`) instead of silently skipping that device. -/
theorem claim_C9 (ex : String → Bool) (s : String)
    (h14 : 14 ≤ (splitWhitespace s).length)
    (hnul : hasNul ((splitWhitespace s).getD 2 "") = true) :
    processLinePhys ex s = .nulErr ∧
    get_iostats_physical ex true [ReadEvent.line s] = .nulError ∧
    get_iostats_physical ex true [ReadEvent.line s] ≠ .ok [] := by
  have hnul' : hasNul (replaceSlashBang ((splitWhitespace s).getD 2 "")) =
      true := by
    rw [hasNul_replaceSlashBang]
    exact hnul
  have h1 := processLinePhys_nul ex s h14 hnul'
  refine ⟨h1, ?_, ?_⟩
  · simp [get_iostats_physical, getIostatsPhysAux, h1]
  · simp [get_iostats_physical, getIostatsPhysAux, h1]

theorem claim_C9_witness :
    processLinePhys (fun _ => true)
        "8 0 sd\x00a 100 0 1600 50 0 0 0 0 0 20 50" = .nulErr ∧
    get_iostats_physical (fun _ => true) true
        [ReadEvent.line "8 0 sd\x00a 100 0 1600 50 0 0 0 0 0 20 50"] =
      .nulError ∧
    get_iostats_physical (fun _ => true) true
        [ReadEvent.line "8 0 sd\x00a 100 0 1600 50 0 0 0 0 0 20 50"] ≠
      .ok [] :=
  claim_C9 (fun _ => true) "8 0 sd\x00a 100 0 1600 50 0 0 0 0 0 20 50"
    (by decide) (by decide)

/-- C10: on the same input, the sequence returned by
`get_iostats_physical` is an order-preserving subsequence of the sequence
returned by `get_iostats`: every record it emits appears, with identical
field values and in the same relative order, in the `get_iostats` output. -/
theorem claim_C10 (ex : String → Bool) (evs : List ReadEvent)
    (l lp : List IoStats)
    (hplain : get_iostats true evs = .ok l)
    (hphys : get_iostats_physical ex true evs = .ok lp) :
    List.Sublist lp l :=
  getIostatsPhysAux_sublist ex evs [] [] lp l (List.Sublist.refl []) hphys
    hplain

theorem claim_C10_witness :
    List.Sublist
      ([{ device_name := "sdb", bytes_read := 3584, bytes_wrtn := 5632 }] :
        List IoStats)
      ([{ device_name := "sda", bytes_read := 819200, bytes_wrtn := 0 },
        { device_name := "sdb", bytes_read := 3584, bytes_wrtn := 5632 }] :
        List IoStats) :=
  claim_C10 (fun p => p == "/sys/block/sdb/device")
    [ReadEvent.line "   8       0 sda 100 0 1600 50 0 0 0 0 0 20 50",
     ReadEvent.line "8 16 sdb 5 0 7 3 0 0 11 0 0 9 4"]
    [{ device_name := "sda", bytes_read := 819200, bytes_wrtn := 0 },
     { device_name := "sdb", bytes_read := 3584, bytes_wrtn := 5632 }]
    [{ device_name := "sdb", bytes_read := 3584, bytes_wrtn := 5632 }]
    (by decide) (by decide)
